import Mathlib

/-!
Formal model of the resume-builder document ingestion and rendering pipeline.

Strings manipulated by the Python code are modelled as `List Char`, with helper
functions mirroring the semantics of the Python string operations used by the
source (`split`, `lower`, `endswith`, `in`, `strip`). Network calls are modelled
by passing the server's responses as explicit function arguments; exceptions are
modelled with `Except`.
-/

def str (s : String) : List Char := s.data

/-- Python `str.lower` on a single character (ASCII letters, the only characters
relevant to the markers compared by the code). -/
def lowerChar (c : Char) : Char :=
  match c with
  | 'A' => 'a' | 'B' => 'b' | 'C' => 'c' | 'D' => 'd' | 'E' => 'e' | 'F' => 'f'
  | 'G' => 'g' | 'H' => 'h' | 'I' => 'i' | 'J' => 'j' | 'K' => 'k' | 'L' => 'l'
  | 'M' => 'm' | 'N' => 'n' | 'O' => 'o' | 'P' => 'p' | 'Q' => 'q' | 'R' => 'r'
  | 'S' => 's' | 'T' => 't' | 'U' => 'u' | 'V' => 'v' | 'W' => 'w' | 'X' => 'x'
  | 'Y' => 'y' | 'Z' => 'z'
  | c => c

/-- Python `str.lower`. -/
def pyLower (s : List Char) : List Char := s.map lowerChar

/-- Does `s` start with `pat` (case-sensitive)? -/
def begins : List Char → List Char → Bool
  | [], _ => true
  | _ :: _, [] => false
  | p :: ps, c :: cs => (p == c) && begins ps cs

/-- Does `s` start with `pat`, comparing characters case-insensitively? -/
def beginsCI : List Char → List Char → Bool
  | [], _ => true
  | _ :: _, [] => false
  | p :: ps, c :: cs => (lowerChar p == lowerChar c) && beginsCI ps cs

/-- Split at the first occurrence of `sep` (case-sensitive): returns the part
before the occurrence and the part after it, or `none` when `sep` does not
occur. This is the primitive behind the models of Python's `in` and `split`. -/
def splitFirst (sep : List Char) : List Char → Option (List Char × List Char)
  | [] => none
  | c :: rest =>
    if begins sep (c :: rest) then some ([], (c :: rest).drop sep.length)
    else
      match splitFirst sep rest with
      | some (a, b) => some (c :: a, b)
      | none => none

/-- Split at the first case-insensitive occurrence of `sep`; used to model
`re.search` with the `IGNORECASE` flag. -/
def splitFirstCI (sep : List Char) : List Char → Option (List Char × List Char)
  | [] => none
  | c :: rest =>
    if beginsCI sep (c :: rest) then some ([], (c :: rest).drop sep.length)
    else
      match splitFirstCI sep rest with
      | some (a, b) => some (c :: a, b)
      | none => none

/-- Python `needle in hay` for nonempty `needle`. -/
def containsSub (hay needle : List Char) : Bool := (splitFirst needle hay).isSome

/-- Python `s.endswith(sfx)`. -/
def endsWith (sfx s : List Char) : Bool := begins sfx.reverse s.reverse

/-- Index of the first occurrence of `needle` in `hay`, Python `hay.find(needle)`
restricted to the found case. -/
def findIdxSub (needle hay : List Char) : Option Nat :=
  match splitFirst needle hay with
  | some (a, _) => some a.length
  | none => none

/-- Worker for `pySplit`; the fuel bounds the number of separator occurrences,
each of which consumes at least one character, so `length + 1` always
suffices. -/
def pySplitAux (sep : List Char) : Nat → List Char → List (List Char)
  | 0, s => [s]
  | fuel + 1, s =>
    match splitFirst sep s with
    | some (a, b) => a :: pySplitAux sep fuel b
    | none => [s]

/-- Python `s.split(sep)` for a nonempty separator. -/
def pySplit (sep s : List Char) : List (List Char) := pySplitAux sep (s.length + 1) s

/-- Python whitespace (`\s` of `re`, `str.strip`): space, tab, newline, carriage
return, form feed, vertical tab. -/
def pyIsSpace (c : Char) : Bool :=
  c == ' ' || c == '\t' || c == '\n' || c == '\r' || c.toNat == 12 || c.toNat == 11

/-- Python `s.strip()`. -/
def trimWs (s : List Char) : List Char :=
  ((s.dropWhile pyIsSpace).reverse.dropWhile pyIsSpace).reverse

/-- Worker for `normWs`: emits a single space in place of each maximal interior
whitespace run; `inWs` records whether a run is pending. -/
def normWsFlag : Bool → List Char → List Char
  | _, [] => []
  | inWs, c :: rest =>
    if pyIsSpace c then normWsFlag true rest
    else (if inWs then [' '] else []) ++ c :: normWsFlag false rest

/-- Whitespace normalization: trim, and collapse every interior whitespace run
to one space. Two strings are "equal modulo whitespace normalization" when this
map sends them to the same list. -/
def normWs (s : List Char) : List Char := normWsFlag false (s.dropWhile pyIsSpace)

/-! ## The JSON document model

Python dictionaries and lists are modelled by a mutual inductive type; `JFields`
keeps key-value pairs in insertion order, which is the iteration order of
`dict.items()`. -/

mutual

inductive Json where
  | null : Json
  | boolJ : Bool → Json
  | numJ : Int → Json
  | strJ : List Char → Json
  | arrJ : JList → Json
  | objJ : JFields → Json
deriving DecidableEq

inductive JList where
  | nil : JList
  | cons : Json → JList → JList
deriving DecidableEq

inductive JFields where
  | fnil : JFields
  | fcons : List Char → Json → JFields → JFields
deriving DecidableEq

end

mutual

/-- Structural size of a JSON value, the termination measure for the
breadth-first traversal. -/
def Json.jsize : Json → Nat
  | .objJ fs => 1 + fs.fsize
  | .arrJ l => 1 + l.lsize
  | _ => 1

def JList.lsize : JList → Nat
  | .nil => 0
  | .cons h t => h.jsize + t.lsize

def JFields.fsize : JFields → Nat
  | .fnil => 0
  | .fcons _ v t => v.jsize + t.fsize

end

/-- Python `d[key]` / `d.get(key)` for a dict: the value stored under `key`
(keys of a Python dict are unique, so first match suffices). -/
def JFields.lookupKey : JFields → List Char → Option Json
  | .fnil, _ => none
  | .fcons k v t, key => if k = key then some v else t.lookupKey key

/-- Python truthiness of a JSON value (`if text:`). -/
def truthy : Json → Bool
  | .null => false
  | .boolJ b => b
  | .numJ n => n != 0
  | .strJ s => !s.isEmpty
  | .arrJ .nil => false
  | .arrJ (.cons _ _) => true
  | .objJ .fnil => false
  | .objJ (.fcons _ _ _) => true

/-- The text appended for a dict value `v` in `extract_text_models`: `v` must be
a dict, contain a dict child keyed `"TextModel"`, and that child's `"text"`
entry must be truthy; the appended value is the `"text"` entry itself. -/
def hitText (v : Json) : Option Json :=
  match v with
  | .objJ fs =>
    match fs.lookupKey (str "TextModel") with
    | some (.objJ tm) =>
      match tm.lookupKey (str "text") with
      | some t => if truthy t then some t else none
      | none => none
    | _ => none
  | _ => none

def isObjJ : Json → Bool
  | .objJ _ => true
  | _ => false

/-- Texts appended to `results` while iterating one popped dict's items. -/
def fieldsEmits : JFields → List Json
  | .fnil => []
  | .fcons _ v t => (match hitText v with | some x => [x] | none => []) ++ fieldsEmits t

/-- Dict values appended to the queue while iterating one popped dict's items
(only values that are themselves dicts are enqueued). -/
def fieldsChildren : JFields → List Json
  | .fnil => []
  | .fcons _ v t => (if isObjJ v then [v] else []) ++ fieldsChildren t

def emitsOf : Json → List Json
  | .objJ fs => fieldsEmits fs
  | _ => []

def childrenOf : Json → List Json
  | .objJ fs => fieldsChildren fs
  | _ => []

def emitsLevel : List Json → List Json
  | [] => []
  | c :: q => emitsOf c ++ emitsLevel q

def childLevel : List Json → List Json
  | [] => []
  | c :: q => childrenOf c ++ childLevel q

def queueMeasure : List Json → Nat
  | [] => 0
  | c :: q => c.jsize + queueMeasure q

/-- The while-loop of `extract_text_models`: pop the queue head, append the
texts found among its dict values to the results, and enqueue its dict values.
The fuel bounds the number of pops; `queueMeasure` of the initial queue is
proved below to be a sufficient bound. -/
def bfsAux : Nat → List Json → List Json
  | 0, _ => []
  | _ + 1, [] => []
  | fuel + 1, c :: q => emitsOf c ++ bfsAux fuel (q ++ childrenOf c)

/-- `AdobeExpressLoader.extract_text_models`: breadth-first mining of every
nested dict for `"TextModel"` texts. -/
def extract_text_models (docModel : Json) : List Json :=
  bfsAux (queueMeasure [docModel]) [docModel]

/-- The breadth-first run on an arbitrary starting queue; `extract_text_models
d` is `bfs [d]`. -/
def bfs (q : List Json) : List Json := bfsAux (queueMeasure q) q

mutual

/-- Number of dict values, reachable from the root through dict nesting alone,
that carry a truthy `"TextModel"` text: the reference count for the miner. -/
def Json.jhits : Json → Nat
  | .objJ fs => fs.fhits
  | _ => 0

def JFields.fhits : JFields → Nat
  | .fnil => 0
  | .fcons _ v t => (if (hitText v).isSome then 1 else 0) + v.jhits + t.fhits

end

def sumHits : List Json → Nat
  | [] => 0
  | c :: q => c.jhits + sumHits q

/-- Emissions of consecutive levels, concatenated shallow-to-deep: level 0 is
the starting queue, each next level is the dict values of the previous one. -/
def levelsConcat : Nat → List Json → List Json
  | 0, _ => []
  | n + 1, q => emitsLevel q ++ levelsConcat n (childLevel q)

def childIter : Nat → List Json → List Json
  | 0, q => q
  | n + 1, q => childIter n (childLevel q)

/-! ## The Adobe Express loader

The document endpoint is modelled as a function from the request's
`Authorization` header (if one is sent) to the response; the token endpoint is
modelled by its single response. -/

structure HttpResp where
  status : Nat
  /-- The parsed inner `docModel` of the response body, when the body is JSON
  with a parseable `docModel` field; `none` models a missing or unparseable
  field (in which case `json.loads(data.get("docModel"))` raises). -/
  docModel : Option Json
deriving DecidableEq

def bearer (token : List Char) : List Char := str "Bearer " ++ token

/-- `response.raise_for_status()`: raises for 4xx/5xx status codes. -/
def raiseForStatus (r : HttpResp) : Except Unit HttpResp :=
  if 400 ≤ r.status then .error () else .ok r

/-- `json.loads(response.json().get("docModel"))` followed by
`extract_text_models`. -/
def parseDocModel (r : HttpResp) : Except Unit (List Json) :=
  match r.docModel with
  | some dm => .ok (extract_text_models dm)
  | none => .error ()

structure TokenResp where
  status : Nat
  accessToken : Option (List Char)
deriving DecidableEq

/-- `_get_oauth_token` / `_aget_oauth_token`: `raise_for_status` on the token
response, then read `token_data["access_token"]` (raising `KeyError` when
absent). Both variants post the same fixed payload to the same endpoint, so a
single response models both. -/
def getOauthToken (tr : TokenResp) : Except Unit (List Char) :=
  if 400 ≤ tr.status then .error ()
  else
    match tr.accessToken with
    | some t => .ok t
    | none => .error ()

/-- `AdobeExpressLoader._fetch_document`: always sends `Authorization: Bearer
<token>` (even for an empty token); on a 401 it repeats the request with no
headers and uses the second response; then `raise_for_status` and parse. -/
def fetchDocument (server : Option (List Char) → HttpResp) (token : List Char) :
    Except Unit (List Json) :=
  match raiseForStatus
      (if (server (some (bearer token))).status = 401 then server none
       else server (some (bearer token))) with
  | .ok r => parseDocModel r
  | .error e => .error e

/-- `AdobeExpressLoader._afetch_document`: sends the `Authorization` header only
when the token is nonempty. In the 401-with-token branch the Python code assigns
`data` from the anonymous retry but never binds `doc_model`, so the subsequent
`doc_model` reference raises `NameError`; when the retry has an error status,
`raise_for_status` raises instead — the branch raises either way. -/
def afetchDocument (server : Option (List Char) → HttpResp) (token : List Char) :
    Except Unit (List Json) :=
  if (server (if token.isEmpty then none else some (bearer token))).status = 401
      && !token.isEmpty then
    match raiseForStatus (server none) with
    | .ok _ => .error ()
    | .error e => .error e
  else
    match raiseForStatus (server (if token.isEmpty then none else some (bearer token))) with
    | .ok r => parseDocModel r
    | .error e => .error e

/-- A langchain `Document` as produced by the Express loader: the mined text as
`page_content` and the original URL as the `source` metadata entry. -/
structure ExDocument where
  pageContent : Json
  source : List Char
  pageIndex : Option Nat
deriving DecidableEq

def mkDocuments (url : List Char) (texts : List Json) : List ExDocument :=
  texts.map (fun t => { pageContent := t, source := url, pageIndex := none })

/-- `AdobeExpressLoader.load`: try token acquisition followed by the
authenticated fetch; on any exception, retry the fetch with an empty token
(which triggers the no-auth path); build one `Document` per mined text. -/
def loadExpress (tr : TokenResp) (server : Option (List Char) → HttpResp)
    (url : List Char) : Except Unit (List ExDocument) :=
  match (match getOauthToken tr with
         | .ok token => fetchDocument server token
         | .error e => .error e) with
  | .ok texts => .ok (mkDocuments url texts)
  | .error _ =>
    match fetchDocument server [] with
    | .ok texts => .ok (mkDocuments url texts)
    | .error e => .error e

/-- `AdobeExpressLoader.aload`: same fallback structure over the asynchronous
fetch. -/
def aloadExpress (tr : TokenResp) (server : Option (List Char) → HttpResp)
    (url : List Char) : Except Unit (List ExDocument) :=
  match (match getOauthToken tr with
         | .ok token => afetchDocument server token
         | .error e => .error e) with
  | .ok texts => .ok (mkDocuments url texts)
  | .error _ =>
    match afetchDocument server [] with
    | .ok texts => .ok (mkDocuments url texts)
    | .error e => .error e

def urnMarker : List Char := str "urn:aaid:sc:AP:"

/-- `AdobeExpressLoader._extract_urn`:
`self.url.split(URN_PREFIX)[1].split("?")[0]` guarded by a containment check. -/
def extract_urn (url : List Char) : Except Unit (List Char) :=
  if containsSub url urnMarker then
    .ok ((pySplit (str "?") (((pySplit urnMarker url).get? 1).getD [])).headD [])
  else .error ()

/-! ## The identifier classifier -/

inductive FileType where
  | pdf | docx | text | adobe_express | adobe_acrobat
deriving DecidableEq

/-- `document_loader.detect_file_type`: lowercase the identifier, then check the
Adobe host markers, then the file extensions; unrecognized identifiers raise
`ValueError`. Note the URN marker is tested verbatim — including its uppercase
`AP` — against the lowercased identifier. -/
def detect_file_type (urlOrPath : List Char) : Except Unit FileType :=
  let urlLower := pyLower urlOrPath
  if containsSub urlLower (str "new.express.adobe.com") then .ok .adobe_express
  else if containsSub urlLower (str "acrobat.adobe.com")
      || containsSub urlLower (str "urn:aaid:sc:AP:") then .ok .adobe_acrobat
  else if endsWith (str ".pdf") urlLower then .ok .pdf
  else if endsWith (str ".docx") urlLower || endsWith (str ".doc") urlLower then .ok .docx
  else if endsWith (str ".txt") urlLower then .ok .text
  else .error ()

/-- Spec-side restatement of the amended classification rules: as
`detect_file_type`, but with the URN-marker disjunct removed — that test
compares a marker containing uppercase letters against the lowercased
identifier and therefore never fires. -/
def classifyAmended (urlOrPath : List Char) : Except Unit FileType :=
  let urlLower := pyLower urlOrPath
  if containsSub urlLower (str "new.express.adobe.com") then .ok .adobe_express
  else if containsSub urlLower (str "acrobat.adobe.com") then .ok .adobe_acrobat
  else if endsWith (str ".pdf") urlLower then .ok .pdf
  else if endsWith (str ".docx") urlLower || endsWith (str ".doc") urlLower then .ok .docx
  else if endsWith (str ".txt") urlLower then .ok .text
  else .error ()

/-! ## The process-wide access-token cache -/

def tokenTTL : Nat := 600

/-- One network fetch of `get_access_token_from_copilot`'s body: `net k` is the
outcome of the `k`-th HTTP request ever made (`.ok tok` models a 200 response
carrying `tok`, `.error` a non-200 status, on which the function raises). A
successful result is stored with expiry `now + 600`; `cachetools` does not
cache exceptions, so on failure the cache is left as it was. -/
def tokenFetch (net : Nat → Except Unit (List Char))
    (cache : Option (List Char × Nat)) (fetches now : Nat) :
    Except Unit (List Char) × Option (List Char × Nat) × Nat :=
  match net fetches with
  | .ok tok => (.ok tok, some (tok, now + tokenTTL), fetches + 1)
  | .error e => (.error e, cache, fetches + 1)

/-- `lib.utils.get_access_token_from_copilot` under
`cachetools.func.ttl_cache(maxsize=1, ttl=600)`: a cached value still inside
its 10-minute window is returned without any network activity; otherwise the
body runs and its result is cached. The state is `(cache, fetches)` where
`fetches` counts network requests; `now` is the current time in seconds. -/
def get_access_token_from_copilot (net : Nat → Except Unit (List Char))
    (cache : Option (List Char × Nat)) (fetches now : Nat) :
    Except Unit (List Char) × Option (List Char × Nat) × Nat :=
  match cache with
  | some (tok, exp) =>
    if now < exp then (.ok tok, some (tok, exp), fetches)
    else tokenFetch net cache fetches now
  | none => tokenFetch net cache fetches now

/-! ## The rendering pipeline -/

def contentMarker : List Char := str "<div class=\"content\">"

def divClose : List Char := str "</div>"

def templateHead : List Char := contentMarker

def templateTail : List Char := divClose ++ str "</body></html>"

/-- Jinja2/markupsafe HTML escaping of one character (the environment is built
with `autoescape=True`, so interpolated variables are escaped). -/
def escapeChar (c : Char) : List Char :=
  if c == '&' then str "&amp;"
  else if c == '<' then str "&lt;"
  else if c == '>' then str "&gt;"
  else if c == '"' then str "&#34;"
  else if c.toNat == 39 then str "&#39;"
  else [c]

def htmlEscape (s : List Char) : List Char := s.flatMap escapeChar

/-- Modelled from the spec: the Jinja template file `templates/resume_template.md`
is not part of the source tree; per the spec the markup string is "embedded into
a fixed template", and the extraction transform locates a designated content
container, so the template is modelled as that container wrapping the markup.
The Jinja environment in the source sets `autoescape=True`, so the interpolated
markup is HTML-escaped. The template's logo block lies outside the content
container and is omitted. -/
def renderResumeTemplate (cvContent : List Char) : List Char :=
  templateHead ++ htmlEscape cvContent ++ templateTail

/-- Worker for `stripTags`: `re.sub(r'<[^>]+>', '', s)` — at each `<`, a
maximal nonempty run of non-`>` characters followed by `>` is deleted; an
unte rminated `<` is kept and scanning resumes after it. Each step consumes at
least one character, so `length` is sufficient fuel. -/
def stripTagsAux : Nat → List Char → List Char
  | 0, s => s
  | _ + 1, [] => []
  | fuel + 1, c :: rest =>
    if c == '<' then
      let run := rest.takeWhile (fun x => x != '>')
      if !run.isEmpty && (rest.drop run.length).headD ' ' == '>' then
        stripTagsAux fuel (rest.drop (run.length + 1))
      else c :: stripTagsAux fuel rest
    else c :: stripTagsAux fuel rest

def stripTags (s : List Char) : List Char := stripTagsAux s.length s

/-- Does `s` begin (case-insensitively) with `<` ++ name ++ `[^>]*` ++ `>` for
one of `names`? Returns the remainder after the `>`. -/
def matchOpenTag (names : List (List Char)) (s : List Char) : Option (List Char) :=
  match names with
  | [] => none
  | n :: rest =>
    if beginsCI ('<' :: n) s then
      let afterName := s.drop (n.length + 1)
      let run := afterName.takeWhile (fun x => x != '>')
      if (afterName.drop run.length).headD ' ' == '>' then
        some (afterName.drop (run.length + 1))
      else matchOpenTag rest s
    else matchOpenTag rest s

/-- First case-insensitive occurrence of any literal in `closes`: returns the
text before it and the remainder after it. -/
def findCloseTag (closes : List (List Char)) : List Char → Option (List Char × List Char)
  | [] => none
  | c :: rest =>
    match closes.find? (fun cl => beginsCI cl (c :: rest)) with
    | some cl => some ([], (c :: rest).drop cl.length)
    | none =>
      match findCloseTag closes rest with
      | some (a, b) => some (c :: a, b)
      | none => none

/-- Worker modelling one global `re.sub` of a tag-pair pattern
`<name[^>]*>(.*?)</name>` (`DOTALL | IGNORECASE`) replaced by
`pre ++ group ++ post`: scan left to right; where an opening tag matches and a
closing literal occurs later, replace and resume after the closing tag;
otherwise advance one character. Each step consumes at least one character, so
`length` is sufficient fuel. -/
def subTagPairAux (opens closes : List (List Char)) (pre post : List Char) :
    Nat → List Char → List Char
  | 0, s => s
  | _ + 1, [] => []
  | fuel + 1, c :: rest =>
    match matchOpenTag opens (c :: rest) with
    | some afterOpen =>
      match findCloseTag closes afterOpen with
      | some (grp, afterClose) =>
        pre ++ grp ++ post ++ subTagPairAux opens closes pre post fuel afterClose
      | none => c :: subTagPairAux opens closes pre post fuel rest
    | none => c :: subTagPairAux opens closes pre post fuel rest

def subTagPair (opens closes : List (List Char)) (pre post s : List Char) : List Char :=
  subTagPairAux opens closes pre post s.length s

/-- Worker modelling a global `re.sub` of a single-tag pattern `<name[^>]*>`
replaced by `repl`. -/
def subSingleTagAux (names : List (List Char)) (repl : List Char) :
    Nat → List Char → List Char
  | 0, s => s
  | _ + 1, [] => []
  | fuel + 1, c :: rest =>
    match matchOpenTag names (c :: rest) with
    | some after => repl ++ subSingleTagAux names repl fuel after
    | none => c :: subSingleTagAux names repl fuel rest

def lastNewlinePos : List Char → Option Nat
  | [] => none
  | c :: rest =>
    match lastNewlinePos rest with
    | some k => some (k + 1)
    | none => if c == '\n' then some 0 else none

/-- Worker modelling `re.sub(r'\n\s*\n', '\n\n', s)`: at a newline, the greedy
`\s*` extends over the following whitespace run and backtracks to the last
newline inside it. -/
def collapseBlankAux : Nat → List Char → List Char
  | 0, s => s
  | _ + 1, [] => []
  | fuel + 1, c :: rest =>
    if c == '\n' then
      match lastNewlinePos (rest.takeWhile pyIsSpace) with
      | some k => '\n' :: '\n' :: collapseBlankAux fuel (rest.drop (k + 1))
      | none => c :: collapseBlankAux fuel rest
    else c :: collapseBlankAux fuel rest

def collapseBlank (s : List Char) : List Char := collapseBlankAux s.length s

/-- `re.sub(r'[ \t]+', ' ', s)`. -/
def collapseSpacesAux : Bool → List Char → List Char
  | _, [] => []
  | prevSp, c :: rest =>
    if c == ' ' || c == '\t' then
      (if prevSp then [] else [' ']) ++ collapseSpacesAux true rest
    else c :: collapseSpacesAux false rest

def collapseSpaces (s : List Char) : List Char := collapseSpacesAux false s

def subSingleTag (names : List (List Char)) (repl s : List Char) : List Char :=
  subSingleTagAux names repl s.length s

def hOpenNames : List (List Char) :=
  [str "h1", str "h2", str "h3", str "h4", str "h5", str "h6"]

def hCloseNames : List (List Char) :=
  [str "</h1>", str "</h2>", str "</h3>", str "</h4>", str "</h5>", str "</h6>"]

/-- `CVEnhancementAgent._html_to_text`: the chain of `re.sub` rewrites turning
the HTML into plain text — header/paragraph/list-item/break/bold rewrites, then
full tag stripping, then whitespace cleanup and `strip`. -/
def html_to_text (html : List Char) : List Char :=
  let t1 := subTagPair hOpenNames hCloseNames (str "\n") (str "\n") html
  let t2 := subTagPair [str "p"] [str "</p>"] (str "\n") (str "\n") t1
  let t3 := subTagPair [str "li"] [str "</li>"] (str "• ") (str "\n") t2
  let t4 := subSingleTag [str "br"] (str "\n") t3
  let t5 := subTagPair [str "strong"] [str "</strong>"] [] [] t4
  let t6 := subTagPair [str "b"] [str "</b>"] [] [] t5
  let t7 := stripTags t6
  let t8 := collapseBlank t7
  let t9 := collapseSpaces t8
  trimWs t9

/-- The second and third branches of `_extract_enhanced_content`: slice between
`'</style>'` (plus its 8 characters) and `'</body>'` with tags stripped, else
fall back to `_html_to_text`. -/
def extractFallback (html : List Char) : List Char :=
  match findIdxSub (str "</style>") html, findIdxSub (str "</body>") html with
  | some styleEnd, some bodyEnd =>
    trimWs (stripTags ((html.drop (styleEnd + 8)).take (bodyEnd - (styleEnd + 8))))
  | _, _ => html_to_text html

/-- `CVEnhancementAgent._extract_enhanced_content`: the case-insensitive search
`re.search(r'<div class="content">\s*(.*?)\s*</div>', html)` — the group is the
text between the first content marker and the first closing `</div>` after it,
with surrounding whitespace removed (the regex's `\s*` plus the `.strip()` on
the group amount to a trim). The Python regex would backtrack to a later
occurrence of the marker if no `</div>` followed the first one; this embedding
keeps the first occurrence and falls back, which agrees on every input where
the first marker is followed by a closing tag — in particular on every
templated document. -/
def extract_enhanced_content (html : List Char) : List Char :=
  match splitFirstCI contentMarker html with
  | some (_, afterMarker) =>
    match splitFirstCI divClose afterMarker with
    | some (grp, _) => trimWs grp
    | none => extractFallback html
  | none => extractFallback html

/-- Markup strings free of the five characters that `autoescape` rewrites. -/
def noHtmlSpecials (s : List Char) : Bool :=
  s.all (fun c => !(c == '&' || c == '<' || c == '>' || c == '"' || c.toNat == 39))

/-! ## The PDF fallback chain -/

inductive PdfEngine where
  | xhtml2pdfE | reportlabE | pymupdfE
deriving DecidableEq

/-- `CVEnhancementAgent._generate_pdf_with_fallbacks`: the three engine bodies
call foreign libraries (markdown + xhtml2pdf, reportlab, PyMuPDF), so each
body's outcome is abstracted as an `Except` argument; the function under
verification is the try/except chain itself. The result pairs the returned
boolean with the list of engines whose bodies were entered, in order. -/
def generate_pdf_with_fallbacks (e1 e2 e3 : Except Unit Unit) :
    Bool × List PdfEngine :=
  match e1 with
  | .ok _ => (true, [.xhtml2pdfE])
  | .error _ =>
    match e2 with
    | .ok _ => (true, [.xhtml2pdfE, .reportlabE])
    | .error _ =>
      match e3 with
      | .ok _ => (true, [.xhtml2pdfE, .reportlabE, .pymupdfE])
      | .error _ => (false, [.xhtml2pdfE, .reportlabE, .pymupdfE])

structure RenderResult where
  /-- Content written to the `.html` path before any PDF attempt. -/
  htmlArtifact : List Char
  /-- Whether `_generate_pdf_with_fallbacks` reported success; the `.pdf`
  artifact is kept only in that case. -/
  pdfGenerated : Bool
  enginesTried : List PdfEngine
deriving DecidableEq

/-- `CVEnhancementAgent._generate_output_node`: fall back to the original CV
content when the enhanced content is blank, render the template, write the HTML
artifact, and only then — when PDF output was requested — run the engine
chain; a chain failure is logged, not raised. Filesystem writes are assumed to
succeed (their failure is outside the modelled behaviour). -/
def generate_output_node (cvContent enhancedContent : List Char)
    (generatePdf : Bool) (e1 e2 e3 : Except Unit Unit) :
    Except Unit RenderResult :=
  let contentToUse :=
    if (trimWs enhancedContent).isEmpty then cvContent else enhancedContent
  let htmlContent := renderResumeTemplate contentToUse
  if generatePdf then
    .ok { htmlArtifact := htmlContent
          pdfGenerated := (generate_pdf_with_fallbacks e1 e2 e3).1
          enginesTried := (generate_pdf_with_fallbacks e1 e2 e3).2 }
  else
    .ok { htmlArtifact := htmlContent, pdfGenerated := false, enginesTried := [] }

def isOkE {ε α : Type} : Except ε α → Bool
  | .ok _ => true
  | .error _ => false

/-! ## The Share-Link page-image OCR strategy -/

/-- Modelled from the spec: the page-image OCR resolution strategy of the
Share-Link loader (spec §4.4, Strategy A) is described as part of the
repository but is absent from the source tree, which contains only the
HTML-scrape strategy (`AdobeAcrobatLoader`). Per the spec: request rendered
page images for `page = 0, 1, 2, …` until the server returns 404 or another
error, keeping the pages fetched so far. `server p` is the image returned for
page `p`, `none` modelling the terminating 404/error; the fuel bounds the loop
(each iteration advances the page by one). -/
def fetch_rendition_pages (server : Nat → Option (List Char)) :
    Nat → Nat → List (Nat × List Char)
  | 0, _ => []
  | fuel + 1, page =>
    match server page with
    | some img => (page, img) :: fetch_rendition_pages server fuel (page + 1)
    | none => []

structure PageUnit where
  text : List Char
  source : List Char
  pageIndex : Nat
deriving DecidableEq

/-- Modelled from the spec: OCR each fetched page image independently and
return one ContentUnit per page whose OCR text is non-empty, tagged with its
`page_index`; pages with empty OCR text are omitted, not errors. -/
def ocr_strategy_load (server : Nat → Option (List Char))
    (ocr : List Char → List Char) (url : List Char) (fuel : Nat) :
    List PageUnit :=
  (fetch_rendition_pages server fuel 0).filterMap (fun pi =>
    if (ocr pi.2).isEmpty then none
    else some { text := ocr pi.2, source := url, pageIndex := pi.1 })

/-! ## Concrete instances used by the counterexamples -/

/-- A document model whose only `TextModel` text is `"A"`. -/
def dmA : Json :=
  .objJ (.fcons (str "k")
    (.objJ (.fcons (str "TextModel")
      (.objJ (.fcons (str "text") (.strJ (str "A")) .fnil)) .fnil)) .fnil)

/-- A document model whose only `TextModel` text is `"B"`. -/
def dmB : Json :=
  .objJ (.fcons (str "k")
    (.objJ (.fcons (str "TextModel")
      (.objJ (.fcons (str "text") (.strJ (str "B")) .fnil)) .fnil)) .fnil)

/-- A document server that answers 200 with `dmA` whenever an `Authorization`
header is present (whatever its value) and 200 with `dmB` when the request
carries no `Authorization` header. -/
def serverByHeader : Option (List Char) → HttpResp
  | some _ => { status := 200, docModel := some dmA }
  | none => { status := 200, docModel := some dmB }

/-- A token endpoint response with a failure status (500). -/
def tokenDown : TokenResp := { status := 500, accessToken := none }

/-- Token network model for the cache counterexample: the first fetch yields
`"tokA"`, any later fetch yields `"tokB"`. -/
def cexNetTokens : Nat → Except Unit (List Char) :=
  fun k => if k = 0 then .ok (str "tokA") else .ok (str "tokB")

deriving instance DecidableEq for Except

/-- A document model with exactly three `TextModel` texts, at depths 1, 2 and 3,
next to unrelated sibling branches (an array and a plain dict). -/
def d3json : Json :=
  .objJ (.fcons (str "a")
    (.objJ (.fcons (str "TextModel")
        (.objJ (.fcons (str "text") (.strJ (str "t1")) .fnil))
      (.fcons (str "child")
        (.objJ (.fcons (str "TextModel")
            (.objJ (.fcons (str "text") (.strJ (str "t2")) .fnil))
          (.fcons (str "grand")
            (.objJ (.fcons (str "TextModel")
                (.objJ (.fcons (str "text") (.strJ (str "t3")) .fnil)) .fnil))
            .fnil)))
        .fnil)))
  (.fcons (str "noise") (.arrJ (.cons (.strJ (str "zz")) .nil))
  (.fcons (str "extra") (.objJ (.fcons (str "x") (.numJ 7) .fnil)) .fnil)))

/-- A document model whose only `TextModel`-carrying mapping sits inside an
array value, hence is reachable from the root only through that array. -/
def arrHidden : Json :=
  .objJ (.fcons (str "wrap")
    (.arrJ (.cons
      (.objJ (.fcons (str "m")
        (.objJ (.fcons (str "TextModel")
          (.objJ (.fcons (str "text") (.strJ (str "hidden")) .fnil)) .fnil)) .fnil))
      .nil))
    .fnil)

/-- Processing of a final document response: `raise_for_status`, then parse;
the common tail of both fetch variants. -/
def fetchStep (r : HttpResp) : Except Unit (List Json) :=
  match raiseForStatus r with
  | .ok r2 => parseDocModel r2
  | .error e => .error e

/-- Outcome of `_afetch_document`'s 401-with-token branch on the anonymous
retry response `r`: an error status raises through `raise_for_status`, a
success reaches the unbound `doc_model` reference and raises `NameError`. -/
def afetch401Step (r : HttpResp) : Except Unit (List Json) :=
  match raiseForStatus r with
  | .ok _ => .error ()
  | .error e => .error e

/-! # Lemmas about the breadth-first miner -/

theorem queueMeasure_append (a b : List Json) :
    queueMeasure (a ++ b) = queueMeasure a + queueMeasure b := by
  induction a with
  | nil => simp [queueMeasure]
  | cons c q ih => simp [queueMeasure, ih]; omega

theorem jsize_pos (j : Json) : 1 ≤ j.jsize := by
  cases j <;> simp [Json.jsize]

theorem sumHits_append (a b : List Json) :
    sumHits (a ++ b) = sumHits a + sumHits b := by
  induction a with
  | nil => simp [sumHits]
  | cons c q ih => simp [sumHits, ih]; omega

theorem fieldsChildren_measure : ∀ (fs : JFields),
    queueMeasure (fieldsChildren fs) ≤ fs.fsize
  | .fnil => by simp [fieldsChildren, queueMeasure, JFields.fsize]
  | .fcons k v t => by
    have ih := fieldsChildren_measure t
    by_cases h : isObjJ v
    · simp [fieldsChildren, h, queueMeasure_append, queueMeasure, JFields.fsize]
      omega
    · simp [fieldsChildren, h, JFields.fsize]
      omega

theorem childrenOf_measure (c : Json) : queueMeasure (childrenOf c) < c.jsize := by
  cases c with
  | objJ fs =>
    have := fieldsChildren_measure fs
    simp only [childrenOf, Json.jsize]
    omega
  | null => simp [childrenOf, Json.jsize, queueMeasure]
  | boolJ b => simp [childrenOf, Json.jsize, queueMeasure]
  | numJ n => simp [childrenOf, Json.jsize, queueMeasure]
  | strJ s => simp [childrenOf, Json.jsize, queueMeasure]
  | arrJ l => simp [childrenOf, Json.jsize, queueMeasure]

theorem step_measure (c : Json) (q : List Json) :
    queueMeasure (q ++ childrenOf c) < queueMeasure (c :: q) := by
  have := childrenOf_measure c
  simp [queueMeasure_append, queueMeasure]
  omega

theorem bfsAux_fuel_irrel : ∀ (f g : Nat) (q : List Json),
    queueMeasure q ≤ f → queueMeasure q ≤ g → bfsAux f q = bfsAux g q := by
  intro f
  induction f with
  | zero =>
    intro g q hf _
    have hq : q = [] := by
      cases q with
      | nil => rfl
      | cons c t =>
        exfalso
        have := jsize_pos c
        simp [queueMeasure] at hf
        omega
    subst hq
    cases g <;> simp [bfsAux]
  | succ f ih =>
    intro g q hf hg
    cases q with
    | nil => cases g <;> simp [bfsAux]
    | cons c t =>
      have hc := jsize_pos c
      cases g with
      | zero =>
        exfalso
        simp [queueMeasure] at hg
        omega
      | succ g =>
        simp only [bfsAux]
        congr 1
        have hstep := step_measure c t
        apply ih
        · omega
        · omega

theorem bfs_cons (c : Json) (q : List Json) :
    bfs (c :: q) = emitsOf c ++ bfs (q ++ childrenOf c) := by
  unfold bfs
  have h1 : 1 ≤ queueMeasure (c :: q) := by
    have := jsize_pos c
    simp [queueMeasure]
    omega
  rw [show queueMeasure (c :: q) = (queueMeasure (c :: q) - 1) + 1 from by omega]
  simp only [bfsAux]
  congr 1
  apply bfsAux_fuel_irrel
  · have := step_measure c q
    omega
  · exact le_refl _

theorem bfs_nil : bfs [] = [] := rfl

theorem bfs_append_level : ∀ (q r : List Json),
    bfs (q ++ r) = emitsLevel q ++ bfs (r ++ childLevel q) := by
  intro q
  induction q with
  | nil =>
    intro r
    simp [emitsLevel, childLevel]
  | cons c q ih =>
    intro r
    have h1 : (c :: q) ++ r = c :: (q ++ r) := rfl
    rw [h1, bfs_cons, List.append_assoc, ih (r ++ childrenOf c)]
    simp [emitsLevel, childLevel, List.append_assoc]

theorem bfs_level_step (q : List Json) :
    bfs q = emitsLevel q ++ bfs (childLevel q) := by
  have h := bfs_append_level q []
  simpa using h

theorem bfs_levels (n : Nat) : ∀ q, bfs q = levelsConcat n q ++ bfs (childIter n q) := by
  induction n with
  | zero =>
    intro q
    simp [levelsConcat, childIter]
  | succ n ih =>
    intro q
    rw [bfs_level_step q, ih (childLevel q)]
    simp [levelsConcat, childIter, List.append_assoc]

theorem childLevel_measure (q : List Json) :
    queueMeasure (childLevel q) + q.length ≤ queueMeasure q := by
  induction q with
  | nil => simp [childLevel, queueMeasure]
  | cons c t ih =>
    have := childrenOf_measure c
    simp [childLevel, queueMeasure_append, queueMeasure, List.length_cons]
    omega

theorem childIter_nil : ∀ n, childIter n [] = [] := by
  intro n
  induction n with
  | zero => rfl
  | succ n ih =>
    show childIter n (childLevel []) = []
    simpa [childLevel] using ih

theorem childIter_dies : ∀ (n : Nat) (q : List Json),
    queueMeasure q ≤ n → childIter n q = [] := by
  intro n
  induction n with
  | zero =>
    intro q h
    cases q with
    | nil => rfl
    | cons c t =>
      exfalso
      have := jsize_pos c
      simp [queueMeasure] at h
      omega
  | succ n ih =>
    intro q h
    cases q with
    | nil => exact childIter_nil (n + 1)
    | cons c t =>
      show childIter n (childLevel (c :: t)) = []
      apply ih
      have h2 := childLevel_measure (c :: t)
      simp [List.length_cons] at h2
      omega

theorem extract_levels (d : Json) :
    extract_text_models d = levelsConcat d.jsize [d] := by
  have h1 : extract_text_models d = bfs [d] := rfl
  rw [h1, bfs_levels d.jsize [d]]
  rw [childIter_dies d.jsize [d] (by simp [queueMeasure])]
  simp [bfs_nil]

theorem fields_count : ∀ (fs : JFields),
    fs.fhits = (fieldsEmits fs).length + sumHits (fieldsChildren fs)
  | .fnil => by simp [JFields.fhits, fieldsEmits, fieldsChildren, sumHits]
  | .fcons k v t => by
    have ih := fields_count t
    have hv : sumHits (if isObjJ v then [v] else []) = v.jhits := by
      by_cases h : isObjJ v
      · simp [h, sumHits]
      · cases v <;> simp_all [isObjJ, sumHits, Json.jhits]
    cases hht : hitText v with
    | some x =>
      simp [JFields.fhits, fieldsEmits, fieldsChildren, sumHits_append, hht, hv, ih]
      omega
    | none =>
      simp [JFields.fhits, fieldsEmits, fieldsChildren, sumHits_append, hht, hv, ih]
      omega

theorem emits_children_count (c : Json) :
    c.jhits = (emitsOf c).length + sumHits (childrenOf c) := by
  cases c with
  | objJ fs =>
    simpa [Json.jhits, emitsOf, childrenOf] using fields_count fs
  | null => simp [Json.jhits, emitsOf, childrenOf, sumHits]
  | boolJ b => simp [Json.jhits, emitsOf, childrenOf, sumHits]
  | numJ n => simp [Json.jhits, emitsOf, childrenOf, sumHits]
  | strJ s => simp [Json.jhits, emitsOf, childrenOf, sumHits]
  | arrJ l => simp [Json.jhits, emitsOf, childrenOf, sumHits]

theorem sumHits_level (q : List Json) :
    sumHits q = (emitsLevel q).length + sumHits (childLevel q) := by
  induction q with
  | nil => simp [sumHits, emitsLevel, childLevel]
  | cons c t ih =>
    have hc := emits_children_count c
    simp [sumHits, emitsLevel, childLevel, List.length_append, sumHits_append, ih]
    omega

theorem bfs_length : ∀ (n : Nat) (q : List Json), queueMeasure q ≤ n →
    (bfs q).length = sumHits q := by
  intro n
  induction n with
  | zero =>
    intro q h
    have hq : q = [] := by
      cases q with
      | nil => rfl
      | cons c t =>
        exfalso
        have := jsize_pos c
        simp [queueMeasure] at h
        omega
    subst hq
    simp [bfs_nil, sumHits]
  | succ n ih =>
    intro q h
    cases q with
    | nil => simp [bfs_nil, sumHits]
    | cons c t =>
      rw [bfs_level_step (c :: t), List.length_append]
      rw [ih (childLevel (c :: t)) (by
        have := childLevel_measure (c :: t)
        simp [List.length_cons] at this
        omega)]
      exact (sumHits_level (c :: t)).symm

theorem extract_length (d : Json) :
    (extract_text_models d).length = d.jhits := by
  have h2 : extract_text_models d = bfs [d] := rfl
  rw [h2, bfs_length (queueMeasure [d]) [d] (le_refl _)]
  simp [sumHits]

/-! # General helper lemmas -/

theorem begins_mem : ∀ (pat s : List Char), begins pat s = true → ∀ c ∈ pat, c ∈ s := by
  intro pat
  induction pat with
  | nil =>
    intro s _ c hc
    simp at hc
  | cons p ps ih =>
    intro s hb c hc
    cases s with
    | nil => simp [begins] at hb
    | cons x xs =>
      simp [begins] at hb
      obtain ⟨hpx, hrest⟩ := hb
      rcases List.mem_cons.mp hc with h | h
      · subst h
        subst hpx
        exact List.mem_cons_self _ _
      · exact List.mem_cons_of_mem x (ih xs hrest c h)

theorem splitFirst_mem : ∀ (hay needle : List Char),
    (splitFirst needle hay).isSome = true → ∀ c ∈ needle, c ∈ hay := by
  intro hay
  induction hay with
  | nil =>
    intro needle h
    simp [splitFirst] at h
  | cons x xs ih =>
    intro needle h c hc
    by_cases hb : begins needle (x :: xs) = true
    · exact begins_mem needle (x :: xs) hb c hc
    · cases hs : splitFirst needle xs with
      | some ab =>
        have h2 : (splitFirst needle xs).isSome = true := by rw [hs]; rfl
        exact List.mem_cons_of_mem x (ih needle h2 c hc)
      | none =>
        exfalso
        simp [splitFirst, hb, hs] at h

theorem lowerChar_ne_A : ∀ c, lowerChar c ≠ 'A' := by
  intro c
  unfold lowerChar
  split
  all_goals simp_all

theorem lowerChar_ne_lt (c : Char) (h : c ≠ '<') : lowerChar c ≠ '<' := by
  unfold lowerChar
  split
  all_goals simp_all

theorem urn_marker_dead (s : List Char) :
    containsSub (pyLower s) (str "urn:aaid:sc:AP:") = false := by
  by_contra hcon
  rw [Bool.not_eq_false] at hcon
  unfold containsSub at hcon
  have hA : 'A' ∈ pyLower s :=
    splitFirst_mem (pyLower s) (str "urn:aaid:sc:AP:") hcon 'A' (by decide)
  obtain ⟨c, _, hlc⟩ := List.mem_map.mp hA
  exact lowerChar_ne_A c hlc

theorem renderResumeTemplate_ne_nil (s : List Char) : renderResumeTemplate s ≠ [] := by
  unfold renderResumeTemplate
  intro h
  have h2 := List.append_eq_nil.mp h
  have : templateTail ≠ [] := by decide
  exact this h2.2

/-! # C1: the PDF fallback chain -/

/-- C1: with PDF generation requested, the three engines are attempted in the
fixed order, each failure being absorbed so the chain advances (engine 3 is
entered exactly when engines 1 and 2 both fail); the node returns normally in
every case, reports a PDF only when some engine succeeded, and the HTML
artifact written before the PDF step is present and non-empty. -/
theorem c1_pdf_fallback_chain (cv enh : List Char) (e1 e2 e3 : Except Unit Unit) :
    generate_output_node cv enh true e1 e2 e3 =
      .ok { htmlArtifact :=
              renderResumeTemplate (if (trimWs enh).isEmpty then cv else enh)
            pdfGenerated := isOkE e1 || isOkE e2 || isOkE e3
            enginesTried :=
              match e1, e2 with
              | .ok _, _ => [PdfEngine.xhtml2pdfE]
              | .error _, .ok _ => [PdfEngine.xhtml2pdfE, PdfEngine.reportlabE]
              | .error _, .error _ =>
                [PdfEngine.xhtml2pdfE, PdfEngine.reportlabE, PdfEngine.pymupdfE] } ∧
    renderResumeTemplate (if (trimWs enh).isEmpty then cv else enh) ≠ [] := by
  constructor
  · cases e1 <;> cases e2 <;> cases e3 <;> rfl
  · exact renderResumeTemplate_ne_nil _

/-! # C2: the identifier classifier -/

/-- C2 counterexample: the claim classifies any identifier containing the URN
marker as remote-acrobat, `.md` identifiers as local-text, and everything
outside its listed cases as rejected; the code rejects a bare URN identifier,
rejects `.md`, and accepts `.doc` as local-docx. -/
theorem c2_counterexample :
    detect_file_type (str "urn:aaid:sc:AP:XYZ123") = .error () ∧
    detect_file_type (str "notes.md") = .error () ∧
    detect_file_type (str "report.doc") = .ok .docx := by decide

/-- C2 amended: classification lowercases the identifier and applies, in
order: Express host marker → remote-express; Acrobat host marker →
remote-acrobat (the URN-marker disjunct never fires, since the marker's
uppercase `AP` is compared against the lowercased identifier); `.pdf` →
local-pdf; `.docx` or `.doc` → local-docx; `.txt` → local-text (`.md` is
rejected); anything else is rejected. -/
theorem c2_classifier_amended (s : List Char) :
    detect_file_type s = classifyAmended s := by
  simp [detect_file_type, classifyAmended, urn_marker_dead]

/-! # C3: Express OAuth fallback and anonymous retry -/

theorem fetch_tok_401 (server : Option (List Char) → HttpResp) (t : List Char)
    (h401 : (server (some (bearer t))).status = 401) :
    fetchDocument server t =
      match raiseForStatus (server none) with
      | .ok r => parseDocModel r
      | .error e => .error e := by
  unfold fetchDocument
  rw [if_pos h401]

/-- C3: when token acquisition fails (error status on the token response),
`load` catches the failure and performs the document fetch with an empty token
instead of propagating; and when the document request carrying a token answers
401, the request is repeated once with no `Authorization` header and that
anonymous response is the one parsed. -/
theorem c3_oauth_fallback (tr : TokenResp) (server : Option (List Char) → HttpResp)
    (url t : List Char) (htr : 400 ≤ tr.status)
    (h401 : (server (some (bearer t))).status = 401) :
    loadExpress tr server url =
      (match fetchDocument server [] with
       | .ok texts => .ok (mkDocuments url texts)
       | .error e => .error e) ∧
    fetchDocument server t =
      (match raiseForStatus (server none) with
       | .ok r => parseDocModel r
       | .error e => .error e) := by
  constructor
  · simp [loadExpress, getOauthToken, htr]
  · exact fetch_tok_401 server t h401

theorem c3_oauth_fallback_witness :
    (400 ≤ tokenDown.status) ∧
    (((fun (h : Option (List Char)) =>
        if h.isSome then ({ status := 401, docModel := none } : HttpResp)
        else { status := 200, docModel := some dmB })
          (some (bearer (str "T")))).status = 401) ∧
    (loadExpress tokenDown
        (fun h =>
          if h.isSome then { status := 401, docModel := none }
          else { status := 200, docModel := some dmB }) (str "u") =
      (match fetchDocument
          (fun h =>
            if h.isSome then { status := 401, docModel := none }
            else { status := 200, docModel := some dmB }) [] with
       | .ok texts => .ok (mkDocuments (str "u") texts)
       | .error e => .error e) ∧
     fetchDocument
        (fun h =>
          if h.isSome then { status := 401, docModel := none }
          else { status := 200, docModel := some dmB }) (str "T") =
      (match raiseForStatus ((fun (h : Option (List Char)) =>
            if h.isSome then ({ status := 401, docModel := none } : HttpResp)
            else { status := 200, docModel := some dmB }) none) with
       | .ok r => parseDocModel r
       | .error e => .error e)) :=
  ⟨by decide, by decide,
    c3_oauth_fallback tokenDown
      (fun h =>
        if h.isSome then { status := 401, docModel := none }
        else { status := 200, docModel := some dmB }) (str "u") (str "T")
      (by decide) (by decide)⟩

/-! # C5: breadth-first text mining order and count -/

/-- C5: for every document model with exactly three truthy `TextModel` texts on
dict-reachable mappings (in particular at three different depths), the miner
emits exactly three texts; the emitted sequence is exactly the level-by-level
(shallow-to-deep, left-to-right within a level) concatenation, hence
deterministic and unaffected by unrelated sibling branches (the count equals
the structural hit count); and `load` wraps each text in a Document whose
source is the original identifier, with no page index. -/
theorem c5_bfs_three_hits (d : Json) (url : List Char) (h : d.jhits = 3) :
    (extract_text_models d).length = 3 ∧
    extract_text_models d = levelsConcat d.jsize [d] ∧
    ∀ doc ∈ mkDocuments url (extract_text_models d),
      doc.source = url ∧ doc.pageIndex = none := by
  refine ⟨?_, extract_levels d, ?_⟩
  · rw [extract_length, h]
  · intro doc hdoc
    simp only [mkDocuments, List.mem_map] at hdoc
    obtain ⟨t, _, rfl⟩ := hdoc
    exact ⟨rfl, rfl⟩

theorem c5_bfs_three_hits_witness :
    Json.jhits d3json = 3 ∧
    ((extract_text_models d3json).length = 3 ∧
     extract_text_models d3json = levelsConcat d3json.jsize [d3json] ∧
     ∀ doc ∈ mkDocuments (str "u") (extract_text_models d3json),
       doc.source = str "u" ∧ doc.pageIndex = none) :=
  ⟨by decide, c5_bfs_three_hits d3json (str "u") (by decide)⟩

/-! # C10: text under arrays is never mined -/

/-- C10: the traversal enqueues only dict values, so in a document model whose
`TextModel`-carrying mappings are reachable from the root only through array
values — i.e. with no dict-reachable hit (`jhits = 0`) — nothing is emitted. -/
theorem c10_arrays_not_mined (d : Json) (h : d.jhits = 0) :
    extract_text_models d = [] := by
  have hl := extract_length d
  rw [h] at hl
  exact List.length_eq_zero.mp hl

theorem c10_arrays_not_mined_witness :
    Json.jhits arrHidden = 0 ∧
    hitText (.objJ (.fcons (str "TextModel")
      (.objJ (.fcons (str "text") (.strJ (str "hidden")) .fnil)) .fnil)) =
        some (.strJ (str "hidden")) ∧
    extract_text_models arrHidden = [] :=
  ⟨by decide, by decide, c10_arrays_not_mined arrHidden (by decide)⟩

/-! # C7: URN extraction -/

/-- C7 counterexample: the claim says the extracted URN runs up to the next
path-or-query delimiter with trailing separators stripped and is always
non-empty; the code cuts only at `?`, keeping a `/` and its tail, and returns
the empty string when the marker ends the URL. -/
theorem c7_counterexample :
    extract_urn (str "https://host/urn:aaid:sc:AP:XYZ123/tail?q") =
      .ok (str "XYZ123/tail") ∧
    extract_urn (str "https://host/urn:aaid:sc:AP:") = .ok [] := by decide

/-- C7 amended: extraction takes the substring after the first occurrence of
the fixed marker (up to a second occurrence, if any), truncated at the first
`?`; a `/` is not a delimiter and nothing is stripped, so the result can be
empty when the marker is immediately followed by the end of the URL or by `?`;
on the spec's example the result is `XYZ123`, and a URL without the marker is
rejected. Extraction is a pure function of the URL, hence deterministic. -/
theorem c7_urn_amended :
    extract_urn (str "https://host/path.urn:aaid:sc:AP:XYZ123?query") =
      .ok (str "XYZ123") ∧
    extract_urn (str "https://host/urn:aaid:sc:AP:XYZ123/tail?query") =
      .ok (str "XYZ123/tail") ∧
    extract_urn (str "https://host/urn:aaid:sc:AP:?query") = .ok [] ∧
    extract_urn (str "https://host/no-marker") = .error () := by decide

/-! # C6: the access-token cache -/

/-- C6 counterexample: after a first acquisition at time 0, a second call at
time 60 — inside the 10-minute window, and after the consuming service has
answered 401 to a request made with the cached token, an event the code offers
no reaction to — still returns the cached `tokA` with no new network fetch;
the claim's discard-and-reacquire would instead have fetched `tokB` and
raised the fetch count to 2. -/
theorem c6_counterexample :
    get_access_token_from_copilot cexNetTokens none 0 0 =
      (.ok (str "tokA"), some (str "tokA", 600), 1) ∧
    get_access_token_from_copilot cexNetTokens (some (str "tokA", 600)) 1 60 =
      (.ok (str "tokA"), some (str "tokA", 600), 1) ∧
    str "tokA" ≠ str "tokB" := by decide

/-- C6 amended: the cache holds one process-wide token for a 10-minute window:
a first call fetches and caches, a second call within the window returns the
identical token with no further fetch, and a call after the window expires
performs a new fetch. There is no 401-based invalidation: the cache exposes no
hook, so a server-reported 401 does not discard the cached token. -/
theorem c6_token_cache_amended (net : Nat → Except Unit (List Char))
    (tok : List Char) (t0 t1 t2 : Nat) (h0 : net 0 = .ok tok)
    (h1 : t1 < t0 + tokenTTL) (h2 : t0 + tokenTTL ≤ t2) :
    get_access_token_from_copilot net none 0 t0 =
      (.ok tok, some (tok, t0 + tokenTTL), 1) ∧
    get_access_token_from_copilot net (some (tok, t0 + tokenTTL)) 1 t1 =
      (.ok tok, some (tok, t0 + tokenTTL), 1) ∧
    (get_access_token_from_copilot net (some (tok, t0 + tokenTTL)) 1 t2).2.2 = 2 := by
  refine ⟨?_, ?_, ?_⟩
  · simp [get_access_token_from_copilot, tokenFetch, h0]
  · simp [get_access_token_from_copilot, h1]
  · have hn : ¬ t2 < t0 + tokenTTL := by omega
    simp only [get_access_token_from_copilot, if_neg hn, tokenFetch]
    cases hne : net 1 <;> simp [hne]

theorem c6_token_cache_amended_witness :
    ((fun (_ : Nat) => (Except.ok (str "tok") : Except Unit (List Char))) 0 =
      .ok (str "tok")) ∧
    (5 < 0 + tokenTTL) ∧ (0 + tokenTTL ≤ 700) ∧
    (get_access_token_from_copilot (fun _ => .ok (str "tok")) none 0 0 =
      (.ok (str "tok"), some (str "tok", 0 + tokenTTL), 1) ∧
     get_access_token_from_copilot (fun _ => .ok (str "tok"))
        (some (str "tok", 0 + tokenTTL)) 1 5 =
      (.ok (str "tok"), some (str "tok", 0 + tokenTTL), 1) ∧
     (get_access_token_from_copilot (fun _ => .ok (str "tok"))
        (some (str "tok", 0 + tokenTTL)) 1 700).2.2 = 2) :=
  ⟨rfl, by decide, by decide,
    c6_token_cache_amended (fun _ => .ok (str "tok")) (str "tok") 0 5 700 rfl
      (by decide) (by decide)⟩

/-! # C4: synchronous versus asynchronous Express loading -/

theorem fetch_anon_form (server : Option (List Char) → HttpResp)
    (h : server (some (bearer [])) = server none) :
    fetchDocument server [] = fetchStep (server none) := by
  unfold fetchDocument fetchStep
  rw [h]
  simp only [ite_self]

theorem afetch_anon_form (server : Option (List Char) → HttpResp) :
    afetchDocument server [] = fetchStep (server none) := by
  unfold afetchDocument fetchStep
  simp

theorem fetch_tok_401_step (server : Option (List Char) → HttpResp) (t : List Char)
    (h401 : (server (some (bearer t))).status = 401) :
    fetchDocument server t = fetchStep (server none) := by
  unfold fetchDocument fetchStep
  rw [if_pos h401]

theorem fetch_tok_no401_step (server : Option (List Char) → HttpResp) (t : List Char)
    (h401 : ¬ (server (some (bearer t))).status = 401) :
    fetchDocument server t = fetchStep (server (some (bearer t))) := by
  unfold fetchDocument fetchStep
  rw [if_neg h401]

theorem afetch_tok_401_step (server : Option (List Char) → HttpResp) (c : Char)
    (t' : List Char) (h401 : (server (some (bearer (c :: t')))).status = 401) :
    afetchDocument server (c :: t') = afetch401Step (server none) := by
  unfold afetchDocument afetch401Step
  simp [h401]

theorem afetch_tok_no401_step (server : Option (List Char) → HttpResp) (c : Char)
    (t' : List Char) (h401 : ¬ (server (some (bearer (c :: t')))).status = 401) :
    afetchDocument server (c :: t') = fetchStep (server (some (bearer (c :: t')))) := by
  unfold afetchDocument fetchStep
  simp [h401]

theorem afetch401Step_eq (r : HttpResp) :
    afetch401Step r =
      match fetchStep r with
      | .ok _ => .error ()
      | .error e => .error e := by
  unfold afetch401Step fetchStep
  cases hr : raiseForStatus r with
  | ok r2 => cases hp : parseDocModel r2 <;> simp [hp]
  | error e => simp

/-- C4 counterexample: with a failing token endpoint and a document server that
answers 200 with model `dmA` to any request carrying an `Authorization` header
and 200 with model `dmB` to a header-less request, the synchronous path (which
sends `Authorization: Bearer ` with the empty fallback token) yields the text
`"A"` while the asynchronous path (which omits the header for an empty token)
yields `"B"`: the two paths do not produce identical Document sequences for
these server responses. -/
theorem c4_counterexample :
    loadExpress tokenDown serverByHeader (str "u") =
      .ok [{ pageContent := .strJ (str "A"), source := str "u", pageIndex := none }] ∧
    aloadExpress tokenDown serverByHeader (str "u") =
      .ok [{ pageContent := .strJ (str "B"), source := str "u", pageIndex := none }] ∧
    loadExpress tokenDown serverByHeader (str "u") ≠
      aloadExpress tokenDown serverByHeader (str "u") := by decide

/-- C4 amended: whenever the document server treats a request carrying
`Authorization: Bearer ` with an empty token exactly like a request carrying no
`Authorization` header, the synchronous and asynchronous Express load paths
produce identical Document sequences (same texts, same order, same source
metadata) for every token response and every such document server — including
the 401-then-anonymous-retry case. -/
theorem c4_sync_async_amended (tr : TokenResp)
    (server : Option (List Char) → HttpResp) (url : List Char)
    (h : server (some (bearer [])) = server none) :
    loadExpress tr server url = aloadExpress tr server url := by
  have hanon : fetchDocument server [] = afetchDocument server [] := by
    rw [fetch_anon_form server h, afetch_anon_form server]
  unfold loadExpress aloadExpress
  cases hgt : getOauthToken tr with
  | error e => simp [hanon]
  | ok t =>
    cases t with
    | nil => simp [hanon]
    | cons c t' =>
      by_cases h401 : (server (some (bearer (c :: t')))).status = 401
      · simp only [fetch_tok_401_step server (c :: t') h401,
          afetch_tok_401_step server c t' h401,
          fetch_anon_form server h, afetch_anon_form server,
          afetch401Step_eq (server none)]
        cases hS : fetchStep (server none) with
        | ok texts => simp
        | error e2 => simp
      · simp only [fetch_tok_no401_step server (c :: t') h401,
          afetch_tok_no401_step server c t' h401]
        cases hS : fetchStep (server (some (bearer (c :: t')))) with
        | ok texts => simp
        | error e2 => simp [hanon]

theorem c4_sync_async_amended_witness :
    ((fun (_ : Option (List Char)) =>
        ({ status := 200, docModel := some dmA } : HttpResp)) (some (bearer [])) =
      (fun (_ : Option (List Char)) =>
        ({ status := 200, docModel := some dmA } : HttpResp)) none) ∧
    loadExpress { status := 200, accessToken := some (str "T") }
        (fun _ => { status := 200, docModel := some dmA }) (str "u") =
      aloadExpress { status := 200, accessToken := some (str "T") }
        (fun _ => { status := 200, docModel := some dmA }) (str "u") :=
  ⟨rfl,
    c4_sync_async_amended { status := 200, accessToken := some (str "T") }
      (fun _ => { status := 200, docModel := some dmA }) (str "u") rfl⟩

/-! # C8: the page-image OCR fetch loop -/

theorem fetch_pages_exact (imgs : Nat → List Char) (n : Nat) :
    ∀ (fuel start : Nat), start ≤ n → n - start < fuel →
    fetch_rendition_pages (fun p => if p < n then some (imgs p) else none) fuel start =
      (List.range (n - start)).map (fun i => (start + i, imgs (start + i))) := by
  intro fuel
  induction fuel with
  | zero =>
    intro start h1 h2
    exact absurd h2 (by omega)
  | succ fuel ih =>
    intro start h1 h2
    by_cases hlt : start < n
    · simp only [fetch_rendition_pages, if_pos hlt]
      rw [ih (start + 1) (by omega) (by omega)]
      rw [show n - start = (n - (start + 1)) + 1 from by omega, List.range_succ_eq_map]
      simp only [List.map_cons, List.map_map, Nat.add_zero]
      congr 1
      apply List.map_congr_left
      intro i _
      have he : start + (i + 1) = start + 1 + i := by omega
      simp only [Function.comp, Nat.succ_eq_add_one, he]
    · have hnone : ¬ start < n := hlt
      simp only [fetch_rendition_pages, if_neg hnone]
      rw [show n - start = 0 from by omega]
      rfl

theorem filterMap_all_some {α β : Type} (f : α → Option β) (g : α → β) :
    ∀ (l : List α), (∀ x ∈ l, f x = some (g x)) → l.filterMap f = l.map g := by
  intro l
  induction l with
  | nil => intro _; rfl
  | cons a t ih =>
    intro hall
    rw [List.filterMap_cons, hall a (List.mem_cons_self a t)]
    rw [List.map_cons, ih (fun x hx => hall x (List.mem_cons_of_mem a hx))]

/-- C8: the page-image OCR strategy requests rendered pages 0, 1, 2, … until
the server's first failure at page `n`, OCRs each image independently, and —
when each fetched page OCRs to non-empty text — returns exactly one
ContentUnit per fetched page, tagged with page indices 0 … n-1 in order; the
pages fetched before the terminating condition are all kept. -/
theorem c8_ocr_page_loop (imgs : Nat → List Char) (ocr : List Char → List Char)
    (url : List Char) (n fuel : Nat) (hfuel : n < fuel)
    (hocr : ∀ p, p < n → (ocr (imgs p)).isEmpty = false) :
    ocr_strategy_load (fun p => if p < n then some (imgs p) else none) ocr url fuel =
      (List.range n).map (fun p =>
        { text := ocr (imgs p), source := url, pageIndex := p }) := by
  unfold ocr_strategy_load
  rw [fetch_pages_exact imgs n fuel 0 (by omega) (by omega)]
  rw [show n - 0 = n from rfl]
  rw [List.filterMap_map]
  apply filterMap_all_some
  intro i hi
  have hin : i < n := List.mem_range.mp hi
  have hne := hocr i hin
  have hne2 : ocr (imgs i) ≠ [] := by
    intro hnil
    rw [hnil] at hne
    simp at hne
  simp [Function.comp, Nat.zero_add, hne, hne2]

theorem c8_ocr_page_loop_witness :
    (3 < 4) ∧
    (∀ p, p < 3 →
      (((fun (i : List Char) => i) ((fun (_ : Nat) => str "x") p)).isEmpty = false)) ∧
    ocr_strategy_load (fun p => if p < 3 then some ((fun (_ : Nat) => str "x") p) else none)
        (fun i => i) (str "u") 4 =
      (List.range 3).map (fun p =>
        { text := (fun (i : List Char) => i) ((fun (_ : Nat) => str "x") p),
          source := str "u", pageIndex := p }) :=
  ⟨by decide, by decide,
    c8_ocr_page_loop (fun _ => str "x") (fun i => i) (str "u") 3 4 (by decide)
      (by decide)⟩

/-! # C9: the template round-trip -/

theorem escapeChar_eq_self (c : Char) (h1 : (c == '&') = false) (h2 : (c == '<') = false)
    (h3 : (c == '>') = false) (h4 : (c == '"') = false) (h5 : (c.toNat == 39) = false) :
    escapeChar c = [c] := by
  unfold escapeChar
  simp [h1, h2, h3, h4, h5]

theorem htmlEscape_id (m : List Char) (h : noHtmlSpecials m = true) : htmlEscape m = m := by
  induction m with
  | nil => rfl
  | cons c t ih =>
    simp only [noHtmlSpecials, List.all_cons, Bool.and_eq_true] at h
    obtain ⟨hc, ht⟩ := h
    simp only [Bool.not_eq_true', Bool.or_eq_false_iff] at hc
    obtain ⟨⟨⟨⟨h1, h2⟩, h3⟩, h4⟩, h5⟩ := hc
    have hchar := escapeChar_eq_self c h1 h2 h3 h4 h5
    have ht' : noHtmlSpecials t = true := ht
    simp only [htmlEscape] at ih ⊢
    rw [List.flatMap_cons, hchar, ih ht']
    rfl

theorem noSpecials_no_lt (m : List Char) (h : noHtmlSpecials m = true) :
    ∀ c ∈ m, c ≠ '<' := by
  intro c hc
  have h2 := List.all_eq_true.mp h c hc
  simp only [Bool.not_eq_true', Bool.or_eq_false_iff] at h2
  intro heq
  subst heq
  simp at h2

theorem beginsCI_self_append (pat b : List Char) : beginsCI pat (pat ++ b) = true := by
  induction pat with
  | nil => rfl
  | cons p ps ih => simp [beginsCI, ih]

theorem splitFirstCI_self (pat b : List Char) (hne : pat ≠ []) :
    splitFirstCI pat (pat ++ b) = some ([], b) := by
  cases pat with
  | nil => exact absurd rfl hne
  | cons p ps =>
    have hb := beginsCI_self_append (p :: ps) b
    rw [List.cons_append] at hb
    rw [List.cons_append]
    simp [splitFirstCI, hb, List.drop_succ_cons, List.drop_left]

theorem splitFirstCI_close_mid (t : List Char) : ∀ (m : List Char),
    (∀ c ∈ m, c ≠ '<') →
    splitFirstCI divClose (m ++ divClose ++ t) = some (m, t) := by
  intro m
  induction m with
  | nil =>
    intro _
    simpa using splitFirstCI_self divClose t (by decide)
  | cons c m' ih =>
    intro hm
    have hc : c ≠ '<' := hm c (List.mem_cons_self c m')
    have hlc : lowerChar c ≠ '<' := lowerChar_ne_lt c hc
    have hd : divClose = '<' :: str "/div>" := rfl
    have hbeq : ('<' == lowerChar c) = false := by
      simp only [beq_eq_false_iff_ne, ne_eq]
      exact fun e => hlc e.symm
    have hbc : beginsCI divClose (c :: (m' ++ divClose ++ t)) = false := by
      rw [hd]
      simp only [beginsCI]
      rw [show lowerChar '<' = '<' from by decide]
      simp [hbeq]
    have hih := ih (fun x hx => hm x (List.mem_cons_of_mem c hx))
    have hgoal : (c :: m') ++ divClose ++ t = c :: (m' ++ divClose ++ t) := by
      simp [List.cons_append, List.append_assoc]
    rw [hgoal]
    rw [hd] at hbc hih ⊢
    simp only [splitFirstCI, hbc, Bool.false_eq_true, hih]
    simp

theorem extract_template (m : List Char) (hm : ∀ c ∈ m, c ≠ '<') :
    extract_enhanced_content (templateHead ++ m ++ templateTail) = trimWs m := by
  unfold extract_enhanced_content
  have h1 : templateHead ++ m ++ templateTail =
      contentMarker ++ (m ++ divClose ++ str "</body></html>") := by
    simp [templateHead, templateTail, List.append_assoc]
  rw [h1]
  simp only [splitFirstCI_self contentMarker (m ++ divClose ++ str "</body></html>")
      (by decide),
    splitFirstCI_close_mid (str "</body></html>") m hm]

theorem normWsFlag_ws_only : ∀ (b : Bool) (w : List Char),
    (∀ c ∈ w, pyIsSpace c = true) → normWsFlag b w = [] := by
  intro b w
  induction w generalizing b with
  | nil => intro _; rfl
  | cons c t ih =>
    intro h
    have hc := h c (List.mem_cons_self c t)
    simp only [normWsFlag, hc, if_pos]
    exact ih true (fun x hx => h x (List.mem_cons_of_mem c hx))

theorem normWsFlag_append_ws (w : List Char) (hw : ∀ c ∈ w, pyIsSpace c = true) :
    ∀ (t : List Char) (b : Bool), normWsFlag b (t ++ w) = normWsFlag b t := by
  intro t
  induction t with
  | nil =>
    intro b
    simp only [List.nil_append, normWsFlag]
    exact normWsFlag_ws_only b w hw
  | cons c t' ih =>
    intro b
    by_cases hc : pyIsSpace c = true
    · simp [normWsFlag, hc, ih]
    · simp [normWsFlag, hc, ih]

theorem dropWhile_idem (p : Char → Bool) (s : List Char) :
    (s.dropWhile p).dropWhile p = s.dropWhile p := by
  induction s with
  | nil => rfl
  | cons c t ih =>
    by_cases hc : p c = true
    · simp [List.dropWhile_cons, hc, ih]
    · simp [List.dropWhile_cons, hc]

theorem dropWhile_head_false (p : Char → Bool) : ∀ (s : List Char) (c : Char)
    (r : List Char), s.dropWhile p = c :: r → p c = false := by
  intro s
  induction s with
  | nil =>
    intro c r h
    simp at h
  | cons x t ih =>
    intro c r h
    by_cases hx : p x = true
    · rw [List.dropWhile_cons, if_pos hx] at h
      exact ih c r h
    · rw [List.dropWhile_cons, if_neg hx] at h
      injection h with h1 h2
      subst h1
      simpa using hx

theorem normWs_trimWs (s : List Char) : normWs (trimWs s) = normWs s := by
  unfold normWs trimWs
  set u := s.dropWhile pyIsSpace with hu
  set v := (u.reverse.dropWhile pyIsSpace).reverse with hv
  set w := (u.reverse.takeWhile pyIsSpace).reverse with hw2
  have hdecomp : u = v ++ w := by
    rw [hv, hw2]
    conv_lhs => rw [← List.reverse_reverse u,
      ← List.takeWhile_append_dropWhile (p := pyIsSpace) (l := u.reverse)]
    rw [List.reverse_append]
  have hwws : ∀ c ∈ w, pyIsSpace c = true := by
    intro c hc
    rw [hw2] at hc
    exact List.mem_takeWhile_imp (List.mem_reverse.mp hc)
  cases hvcase : v with
  | nil =>
    rw [hvcase] at hdecomp
    rw [hdecomp]
    simp only [List.nil_append, List.dropWhile_nil, normWsFlag]
    exact (normWsFlag_ws_only false w hwws).symm
  | cons c r =>
    rw [← hvcase]
    have hcne : pyIsSpace c = false := by
      apply dropWhile_head_false pyIsSpace s c (r ++ w)
      rw [← hu, hdecomp, hvcase]
      simp [List.cons_append]
    have hvdrop : v.dropWhile pyIsSpace = v := by
      rw [hvcase]
      simp [List.dropWhile_cons, hcne]
    calc normWsFlag false (v.dropWhile pyIsSpace)
        = normWsFlag false v := by rw [hvdrop]
      _ = normWsFlag false (v ++ w) := (normWsFlag_append_ws w hwws v false).symm
      _ = normWsFlag false u := by rw [← hdecomp]

/-- C9 counterexample: the markup `"a & b"` is HTML-escaped by the template
render (autoescape), so the extract-clean-content transform returns
`"a &amp; b"`, which differs from the original markup even modulo whitespace
normalization. -/
theorem c9_counterexample :
    normWs (extract_enhanced_content (renderResumeTemplate (str "a & b"))) ≠
      normWs (str "a & b") ∧
    normWs (extract_enhanced_content (renderResumeTemplate (str "a & b"))) =
      normWs (str "a &amp; b") := by decide

/-- C9 amended: for every markup string free of the five HTML-escaped
characters (`&`, `<`, `>`, double quote, apostrophe), embedding it into the
template and applying the extract-clean-content transform returns the original
markup modulo whitespace normalization. -/
theorem c9_roundtrip_amended (m : List Char) (h : noHtmlSpecials m = true) :
    normWs (extract_enhanced_content (renderResumeTemplate m)) = normWs m := by
  have hesc : htmlEscape m = m := htmlEscape_id m h
  have hlt : ∀ c ∈ m, c ≠ '<' := noSpecials_no_lt m h
  unfold renderResumeTemplate
  rw [hesc, extract_template m hlt]
  exact normWs_trimWs m

theorem c9_roundtrip_amended_witness :
    noHtmlSpecials (str "Jane Doe  Senior Engineer") = true ∧
    normWs (extract_enhanced_content
        (renderResumeTemplate (str "Jane Doe  Senior Engineer"))) =
      normWs (str "Jane Doe  Senior Engineer") :=
  ⟨by decide, c9_roundtrip_amended (str "Jane Doe  Senior Engineer") (by decide)⟩
